import Mathlib

/-!
Verification of the match-selection and feedback-adjusted ranking engine of
the MyAI_Assistant repository.  Timestamps and scores (Python floats) are
modelled as rationals; Python sets of strings as `Finset String`; Python
lists as Lean lists.  The external embedding model (`SentenceTransformer`
encodings and `util.semantic_search`) is treated as an oracle whose ranked
hit lists are passed in as parameters, exactly as the spec designates the
candidate search capability an external collaborator; everything downstream
of those hits (merging, weighting, feedback adjustment, clamping, sorting,
selection, history, events) is embedded from the source.
-/

namespace MyAI

/-- Entity `VisualFrame` (src/domain/visual_frame.py): a single frame of a
video, identified by filename and timestamp. -/
structure VisualFrame where
  video_filename : String
  timestamp : ℚ
  frame_path : String
deriving DecidableEq

/-- Entity `VideoSegment` (src/domain/video_segment.py): a fragment of a
video with a time range, id, preview path and constituent key frames. -/
structure VideoSegment where
  video_filename : String
  start_time : ℚ
  end_time : ℚ
  segment_id : String
  preview_frame_path : String
  key_frames : List VisualFrame
deriving DecidableEq

/-- Source `VideoSegment.get_middle_timestamp`: midpoint of the segment. -/
def VideoSegment.get_middle_timestamp (s : VideoSegment) : ℚ :=
  (s.start_time + s.end_time) / 2

/-- Validation of `VisualFrame.__post_init__`: building a frame raises on a
negative timestamp or empty filename; modelled as an `Except`. -/
def mk_visual_frame (filename : String) (ts : ℚ) (path : String) :
    Except String VisualFrame :=
  if ts < 0 then .error "timestamp_negative"
  else if filename = "" then .error "filename_empty"
  else .ok ⟨filename, ts, path⟩

/-- Validation of `VideoSegment.__post_init__`: building a segment raises on
a negative start, `end_time <= start_time`, or empty filename / id / preview
path; modelled as an `Except`. -/
def mk_video_segment (filename : String) (st et : ℚ) (sid ppath : String)
    (kfs : List VisualFrame) : Except String VideoSegment :=
  if st < 0 then .error "start_negative"
  else if et ≤ st then .error "end_not_after_start"
  else if filename = "" then .error "filename_empty"
  else if sid = "" then .error "segment_id_empty"
  else if ppath = "" then .error "preview_path_empty"
  else .ok ⟨filename, st, et, sid, ppath, kfs⟩

namespace ClipSearchEngine

/-- Feedback state of `ClipSearchEngine`: the two Python string sets
`self.feedback["positive"]` and `self.feedback["negative"]`. -/
structure FeedbackState where
  positive : Finset String
  negative : Finset String
deriving DecidableEq

/-- Initial feedback state (`{"positive": set(), "negative": set()}`). -/
def initial_feedback : FeedbackState := ⟨∅, ∅⟩

/-- Source `round(frame.timestamp, 2)`: rounding to two decimal places.
Python floats round ties to even; the tie-breaking mode of `round` is a
binary floating point detail abstracted by the rational model. -/
def round_to_2 (q : ℚ) : ℚ := (round (q * 100) : ℤ) / 100

/-- Source `_feedback_key`: `f"{frame.video_filename}|{ts}"` with the
timestamp rounded to two decimals. -/
def feedback_key (frame : VisualFrame) : String :=
  frame.video_filename ++ "|" ++ toString (round_to_2 frame.timestamp)

/-- Source `record_feedback` (clip_search_engine.py lines 121-134): a `None`
frame is ignored; otherwise the key is removed from the opposite set and
added to the matching set. -/
def record_feedback (fb : FeedbackState) (frame : Option VisualFrame)
    (is_positive : Bool) : FeedbackState :=
  match frame with
  | none => fb
  | some frame =>
    let key := feedback_key frame
    if is_positive then
      ⟨insert key fb.positive, fb.negative.erase key⟩
    else
      ⟨fb.positive.erase key, insert key fb.negative⟩

/-- Source `record_segment_feedback` (clip_search_engine.py lines 313-318):
a `None` segment or one with an empty `key_frames` list is ignored;
otherwise feedback is recorded for the first key frame. -/
def record_segment_feedback (fb : FeedbackState) (segment : Option VideoSegment)
    (is_positive : Bool) : FeedbackState :=
  match segment with
  | none => fb
  | some seg =>
    match seg.key_frames with
    | [] => fb
    | kf :: _ => record_feedback fb (some kf) is_positive

/-- Source stop-word set `self._stop_words` of `ClipSearchEngine`. -/
def stop_words : List String :=
  ["и", "в", "на", "с", "по", "к", "о", "за", "для", "как", "что", "это",
   "из", "или", "но", "the", "and", "for", "with", "about", "from", "into",
   "over", "under", "been", "were", "was", "are", "you", "your", "our",
   "мы", "они", "она", "он", "его", "ее", "их", "там", "then", "than",
   "that", "this", "those", "these", "потом", "тогда", "еще", "ещё"]

/-- Character class of the tokenizing regex `[A-Za-zА-Яа-яёЁ0-9]`. -/
def is_word_char (c : Char) : Bool :=
  (('A' ≤ c && c ≤ 'Z') || ('a' ≤ c && c ≤ 'z') || ('0' ≤ c && c ≤ '9')
    || ('А' ≤ c && c ≤ 'я') || c = 'ё' || c = 'Ё')

/-- Source `text.lower()` restricted to the characters the tokenizer keeps:
Latin A-Z, Cyrillic А-Я and Ё map to their lowercase forms. -/
def py_lower_char (c : Char) : Char :=
  if 'A' ≤ c && c ≤ 'Z' then Char.ofNat (c.toNat + 32)
  else if 'А' ≤ c && c ≤ 'Я' then Char.ofNat (c.toNat + 32)
  else if c = 'Ё' then 'ё'
  else c

/-- Splits a character list into maximal runs of word characters, modelling
`re.findall` of the token regex. -/
def tokenize_aux : List Char → List Char → List String
  | [], cur => if cur.isEmpty then [] else [String.mk cur.reverse]
  | c :: rest, cur =>
    if is_word_char c then tokenize_aux rest (c :: cur)
    else if cur.isEmpty then tokenize_aux rest []
    else String.mk cur.reverse :: tokenize_aux rest []

/-- Source `re.findall(r"[A-Za-zА-Яа-яёЁ0-9]+", text.lower())`. -/
def tokenize (text : String) : List String :=
  tokenize_aux (text.data.map py_lower_char) []

/-- Keyword loop of `_extract_tags_internal`: skip tokens shorter than 4
characters or stop words, keep the first occurrence of each remaining
token, stop as soon as 12 keywords are collected. -/
def collect_keywords (stop : List String) : List String → List String → List String
  | [], acc => acc
  | t :: rest, acc =>
    if t.length < 4 || stop.contains t then collect_keywords stop rest acc
    else
      let acc2 := if acc.contains t then acc else acc ++ [t]
      if 12 ≤ acc2.length then acc2 else collect_keywords stop rest acc2

/-- Bigram loop of `_extract_tags_internal`: for each adjacent token pair
with neither token a stop word, keep the phrase `a ++ " " ++ b` when it has
at least 8 characters, stopping once 4 bigrams are collected. -/
def collect_bigrams (stop : List String) : List String → List String → List String
  | [], acc => acc
  | [_], acc => acc
  | a :: b :: rest, acc =>
    if stop.contains a || stop.contains b then
      collect_bigrams stop (b :: rest) acc
    else
      let phrase := a ++ " " ++ b
      let acc2 := if 8 ≤ phrase.length then acc ++ [phrase] else acc
      if 4 ≤ acc2.length then acc2 else collect_bigrams stop (b :: rest) acc2

/-- Source `_extract_tags_internal` (clip_search_engine.py lines 141-169):
keywords then bigrams, truncated to 15 entries, joined with `", "`. -/
def extract_tags_internal (text : String) : String :=
  let tokens := tokenize text
  let keywords := collect_keywords stop_words tokens []
  let bigrams := collect_bigrams stop_words tokens []
  String.intercalate ", " ((keywords ++ bigrams).take 15)

/-- Model of Python `str.split(",")`: cut at every comma, keeping empty
pieces. -/
def py_split_commas_aux : List Char → List Char → List String
  | [], cur => [String.mk cur.reverse]
  | c :: rest, cur =>
    if c = ',' then String.mk cur.reverse :: py_split_commas_aux rest []
    else py_split_commas_aux rest (c :: cur)

/-- Model of Python `str.split(",")` on a string. -/
def py_split_commas (s : String) : List String := py_split_commas_aux s.data []

/-- Model of Python `str.strip()`: whitespace removed from both ends. -/
def py_strip (s : String) : String :=
  String.mk
    (((s.data.dropWhile fun c => c.isWhitespace).reverse.dropWhile
        fun c => c.isWhitespace).reverse)

/-- Source `extract_tags` (clip_search_engine.py lines 136-139): split the
internal comma-joined string back into a stripped, non-empty list. -/
def extract_tags (text : String) : List String :=
  ((py_split_commas (extract_tags_internal text)).map py_strip).filter
    (fun s => s ≠ "")

/-- State of a `ClipSearchEngine` after its lazy `_initialize` has run: the
loaded frames and segments and the presence of their embedding tensors (the
tensor contents live in the external model and only their presence is
observable by the control flow), plus the feedback sets. -/
structure EngineState where
  frames : List VisualFrame
  segments : List VideoSegment
  embeddings : Option Unit
  segment_embeddings : Option Unit
  feedback : FeedbackState
deriving DecidableEq

/-- Source `is_ready` (clip_search_engine.py lines 57-64): frames with
embeddings present, or segments with segment embeddings present. -/
def is_ready (e : EngineState) : Bool :=
  (e.embeddings.isSome && decide (0 < e.frames.length))
    || (e.segment_embeddings.isSome && decide (0 < e.segments.length))

/-- Labels of the two sub-queries merged by `_merge_hits`. -/
inductive HitLabel where
  | text
  | tags
deriving DecidableEq

/-- Aggregated per-candidate entry of the `aggregated_hits` dict: the corpus
index, the candidate, and the best score seen per source label. -/
structure AggEntry (α : Type) where
  idx : ℕ
  cand : α
  text_score : Option ℚ
  tags_score : Option ℚ
deriving DecidableEq

/-- Source `entry["scores"][source_label] = max(entry["scores"].get(source_label, 0.0), score)`. -/
def update_entry (label : HitLabel) (score : ℚ) (en : AggEntry α) : AggEntry α :=
  match label with
  | .text => { en with text_score := some (max (en.text_score.getD 0) score) }
  | .tags => { en with tags_score := some (max (en.tags_score.getD 0) score) }

/-- Inserts one hit into the insertion-ordered association list that models
the `aggregated_hits` Python dict (`storage.setdefault` plus the score
update). -/
def upsert_hit (cands : List α) (dflt : α) (label : HitLabel) (idx : ℕ)
    (score : ℚ) : List (AggEntry α) → List (AggEntry α)
  | [] => [update_entry label score ⟨idx, cands.getD idx dflt, none, none⟩]
  | en :: rest =>
    if en.idx = idx then update_entry label score en :: rest
    else en :: upsert_hit cands dflt label idx score rest

/-- Source `_merge_hits` / `_merge_segment_hits`: folds a hit list (pairs of
corpus index and similarity score returned by the external semantic search)
into the aggregation storage.  The external index only returns valid corpus
indices, so the source's `self.frames[idx]` lookup is modelled with a
default that is never reached for in-range indices. -/
def merge_hits (cands : List α) (dflt : α) (hits : List (ℕ × ℚ))
    (label : HitLabel) (storage : List (AggEntry α)) : List (AggEntry α) :=
  hits.foldl (fun st h => upsert_hit cands dflt label h.1 h.2 st) storage

/-- Combined weighted score of one aggregated entry: `0.7 * text + 0.3 *
tags` over the labels present, with a flat `0.8` penalty when no
`"text"`-labeled hit exists. -/
def combined_score (en : AggEntry α) : ℚ :=
  let base := (7/10) * en.text_score.getD 0 + (3/10) * en.tags_score.getD 0
  if en.text_score.isNone then base * (8/10) else base

/-- Feedback adjustment and clamp applied to one frame score inside
`search` (clip_search_engine.py lines 104-118): multiply by `0.2` for a
negative-feedback key, else by `1.25` for a positive one, then clamp to
`[0, 1]`. -/
def adjust_score (fb : FeedbackState) (key : String) (score : ℚ) : ℚ :=
  let s :=
    if key ∈ fb.negative then score * (2/10)
    else if key ∈ fb.positive then score * (125/100)
    else score
  max 0 (min s 1)

/-- Stable descending insertion step: an element is placed before the first
entry with a score not above its own, reproducing the output of Python's
stable `list.sort(key=score, reverse=True)`. -/
def insert_desc (x : α × ℚ) : List (α × ℚ) → List (α × ℚ)
  | [] => [x]
  | y :: rest => if y.2 ≤ x.2 then x :: y :: rest else y :: insert_desc x rest

/-- Stable sort by descending score (`adjusted.sort(key=..., reverse=True)`). -/
def sort_desc (l : List (α × ℚ)) : List (α × ℚ) := l.foldr insert_desc []

/-- Shared tail of `search`: build aggregated entries from the two hit
lists, combine scores, feedback-adjust per candidate, sort descending and
truncate to `limit`. -/
def search_pipeline (cands : List α) (dflt : α) (adjust : α → ℚ → ℚ)
    (query_stripped tag_query : String) (text_hits tag_hits : List (ℕ × ℚ))
    (limit : ℕ) : List (α × ℚ) :=
  let storage1 :=
    if query_stripped ≠ "" then merge_hits cands dflt text_hits .text [] else []
  let storage2 :=
    if tag_query ≠ "" then merge_hits cands dflt tag_hits .tags storage1
    else storage1
  let results := storage2.map fun en => (en.cand, combined_score en)
  let adjusted := results.map fun p => (p.1, adjust p.1 p.2)
  (sort_desc adjusted).take limit

/-- Source `search` (clip_search_engine.py lines 66-119): returns `[]` when
the engine is not ready; otherwise runs the two sub-queries against the
frame embeddings (hit lists supplied by the external model), merges,
weights, feedback-adjusts, clamps, sorts and truncates. -/
def search (e : EngineState) (text_hits tag_hits : List (ℕ × ℚ))
    (query_text : String) (limit : ℕ) : List (VisualFrame × ℚ) :=
  if !is_ready e then []
  else
    let query := query_text.trim
    let tag_query := extract_tags_internal query
    search_pipeline e.frames ⟨"", 0, ""⟩
      (fun f score => adjust_score e.feedback (feedback_key f) score)
      query tag_query text_hits tag_hits limit

/-- Feedback adjustment of one segment score inside `search_segments`: the
feedback key comes from the first key frame when one exists, otherwise the
score is only clamped. -/
def adjust_segment_score (fb : FeedbackState) (seg : VideoSegment) (score : ℚ) : ℚ :=
  match seg.key_frames with
  | [] => max 0 (min score 1)
  | kf :: _ => adjust_score fb (feedback_key kf) score

/-- Source `search_segments` (clip_search_engine.py lines 255-312): returns
`[]` when the engine is not ready, when no segments are loaded, or when no
segment embeddings exist; otherwise runs the same pipeline over segments. -/
def search_segments (e : EngineState) (text_hits tag_hits : List (ℕ × ℚ))
    (query_text : String) (limit : ℕ) : List (VideoSegment × ℚ) :=
  if !is_ready e || e.segments.isEmpty || e.segment_embeddings.isNone then []
  else
    let query := query_text.trim
    let tag_query := extract_tags_internal query
    search_pipeline e.segments ⟨"", 0, 1, "", "", []⟩
      (adjust_segment_score e.feedback)
      query tag_query text_hits tag_hits limit

end ClipSearchEngine

namespace DocumentAnalysisService

/-- Configuration of `DocumentAnalysisService.__init__` with the source's
defaults: `score_threshold = 0.25`, `history_size = 15`,
`time_window = 5.0`. -/
structure AnalysisConfig where
  score_threshold : ℚ := 1/4
  history_size : ℕ := 15
  time_window : ℚ := 5
deriving DecidableEq

/-- Default configuration (all constructor defaults). -/
def default_config : AnalysisConfig := {}

/-- Type of `self.used_frames_history`: a list of
`(video_filename, timestamp)` pairs. -/
abbrev History := List (String × ℚ)

/-- Source `_is_duplicate` (document_analysis_service.py lines 184-190): a
frame is a duplicate when the history holds an entry with the same video
filename whose timestamp is strictly within `time_window` of the frame's. -/
def is_duplicate (cfg : AnalysisConfig) (hist : History) (frame : VisualFrame) : Bool :=
  hist.any fun p =>
    frame.video_filename == p.1 && decide (|frame.timestamp - p.2| < cfg.time_window)

/-- Source `_is_duplicate_segment` (lines 192-199): the same test against
the segment's middle timestamp. -/
def is_duplicate_segment (cfg : AnalysisConfig) (hist : History)
    (segment : VideoSegment) : Bool :=
  let middle_time := segment.get_middle_timestamp
  hist.any fun p =>
    segment.video_filename == p.1 && decide (|middle_time - p.2| < cfg.time_window)

/-- Source `_add_to_history` (lines 201-205): append the frame's
`(filename, timestamp)` pair, then drop the oldest entry when the length
exceeds `history_size`. -/
def add_to_history (cfg : AnalysisConfig) (hist : History) (frame : VisualFrame) : History :=
  let h := hist ++ [(frame.video_filename, frame.timestamp)]
  if cfg.history_size < h.length then h.drop 1 else h

/-- Source `_add_segment_to_history` (lines 207-212): same, with the
segment's middle timestamp. -/
def add_segment_to_history (cfg : AnalysisConfig) (hist : History)
    (segment : VideoSegment) : History :=
  let middle_time := segment.get_middle_timestamp
  let h := hist ++ [(segment.video_filename, middle_time)]
  if cfg.history_size < h.length then h.drop 1 else h

/-- Outcome of the three-tier selection of one candidate list: the chosen
candidate with its score (if any), the `took_duplicate` flag, and the
history after the selection. -/
structure Selection (α : Type) where
  final : Option (α × ℚ)
  took_duplicate : Bool
  history : History
deriving DecidableEq

/-- Scan loop of `_process_block` over frame candidates: break at the first
score strictly below the threshold, otherwise return the first candidate
that is not a duplicate. -/
def find_unique_frame (cfg : AnalysisConfig) (hist : History) :
    List (VisualFrame × ℚ) → Option (VisualFrame × ℚ)
  | [] => none
  | (f, s) :: rest =>
    if s < cfg.score_threshold then none
    else if is_duplicate cfg hist f then find_unique_frame cfg hist rest
    else some (f, s)

/-- Scan loop of `_process_segment_results` over segment candidates. -/
def find_unique_segment (cfg : AnalysisConfig) (hist : History) :
    List (VideoSegment × ℚ) → Option (VideoSegment × ℚ)
  | [] => none
  | (sg, s) :: rest =>
    if s < cfg.score_threshold then none
    else if is_duplicate_segment cfg hist sg then find_unique_segment cfg hist rest
    else some (sg, s)

/-- Frame branch of `_process_block` (document_analysis_service.py lines
99-136): on an empty result list return nothing; otherwise pick the unique
scan result (plan A, recorded into history), else the first candidate when
its score clears the threshold (plan B, `took_duplicate`, history
untouched), else nothing. -/
def process_frame_results (cfg : AnalysisConfig) (hist : History)
    (search_results : List (VisualFrame × ℚ)) : Selection VisualFrame :=
  match search_results with
  | [] => ⟨none, false, hist⟩
  | (absolute_best_frame, absolute_best_score) :: _ =>
    match find_unique_frame cfg hist search_results with
    | some (f, s) => ⟨some (f, s), false, add_to_history cfg hist f⟩
    | none =>
      if cfg.score_threshold ≤ absolute_best_score then
        ⟨some (absolute_best_frame, absolute_best_score), true, hist⟩
      else ⟨none, false, hist⟩

/-- Source `_process_segment_results` (lines 145-182); the source only
invokes it on a non-empty list (the `[]` branch mirrors the frame branch's
guard and is unreachable from `_process_block`). -/
def process_segment_results (cfg : AnalysisConfig) (hist : History)
    (segment_results : List (VideoSegment × ℚ)) : Selection VideoSegment :=
  match segment_results with
  | [] => ⟨none, false, hist⟩
  | (absolute_best_segment, absolute_best_score) :: _ =>
    match find_unique_segment cfg hist segment_results with
    | some (sg, s) => ⟨some (sg, s), false, add_segment_to_history cfg hist sg⟩
    | none =>
      if cfg.score_threshold ≤ absolute_best_score then
        ⟨some (absolute_best_segment, absolute_best_score), true, hist⟩
      else ⟨none, false, hist⟩

/-- Selection produced for one block: a frame or a segment with its score. -/
inductive BlockSelection where
  | frame (f : VisualFrame) (score : ℚ)
  | segment (s : VideoSegment) (score : ℚ)
deriving DecidableEq

/-- Source `_process_block` (lines 83-143): segment results, when
non-empty, fully replace the frame search path; otherwise the frame
candidates are processed (with `None` returned on an empty frame list). -/
def process_block (cfg : AnalysisConfig) (hist : History)
    (segment_results : List (VideoSegment × ℚ))
    (frame_results : List (VisualFrame × ℚ)) :
    Option BlockSelection × History :=
  if !segment_results.isEmpty then
    let r := process_segment_results cfg hist segment_results
    (r.final.map fun p => .segment p.1 p.2, r.history)
  else
    let r := process_frame_results cfg hist frame_results
    (r.final.map fun p => .frame p.1 p.2, r.history)

/-- Engine interaction of one block inside the `try` of `analyze_document`:
either the candidate lists the two searches return for the block's text, or
an exception raised while processing the block (caught by the loop). -/
inductive BlockOutcome where
  | ok (segment_results : List (VideoSegment × ℚ))
       (frame_results : List (VisualFrame × ℚ))
  | raises (msg : String)
deriving DecidableEq

/-- Progress events delivered through `progress_callback` during
`analyze_document` (payload dicts abstracted). -/
inductive ProgressEvent where
  | status_blocks_found (count : ℕ)
  | status_processing_block (idx : ℕ) (total : ℕ)
  | result_found
  | finished
deriving DecidableEq

/-- Predicate picking out the per-block progress event. -/
def is_block_progress : ProgressEvent → Bool
  | .status_processing_block _ _ => true
  | _ => false

/-- Block loop of `analyze_document` (lines 50-76): per block, emit the
per-block status event, then either catch-and-skip a raising block or
process its candidates, appending the selection (with a `result_found`
event) when one was made. -/
def block_loop (cfg : AnalysisConfig) :
    List BlockOutcome → History → ℕ → ℕ →
    List BlockSelection × List ProgressEvent × History
  | [], hist, _, _ => ([], [], hist)
  | b :: rest, hist, idx, total =>
    let ev := ProgressEvent.status_processing_block idx total
    match b with
    | .raises _ =>
      let r := block_loop cfg rest hist (idx + 1) total
      (r.1, ev :: r.2.1, r.2.2)
    | .ok segs frames =>
      let p := process_block cfg hist segs frames
      let r := block_loop cfg rest p.2 (idx + 1) total
      match p.1 with
      | some sel => (sel :: r.1, ev :: .result_found :: r.2.1, r.2.2)
      | none => (r.1, ev :: r.2.1, r.2.2)

/-- Result of one `analyze_document` call: the returned selections, the
events emitted through the progress callback, and the service's
`used_frames_history` after the call. -/
structure RunOutput where
  results : List BlockSelection
  events : List ProgressEvent
  history : History
deriving DecidableEq

/-- Source `analyze_document` (lines 29-81) after its precondition checks
(document connected, engine ready) have passed and with a progress callback
installed: `hist` is the service's `used_frames_history` at entry, which the
method reads and extends but never clears. -/
def analyze_document (cfg : AnalysisConfig) (hist : History)
    (blocks : List BlockOutcome) : RunOutput :=
  let total := blocks.length
  let r := block_loop cfg blocks hist 1 total
  ⟨r.1, .status_blocks_found total :: r.2.1 ++ [.finished], r.2.2⟩

/-- Test whether a block's engine interaction completes without raising. -/
def block_ok : BlockOutcome → Bool
  | .ok _ _ => true
  | .raises _ => false

/-- Blocks of a run with the raising ones removed. -/
def ok_blocks (blocks : List BlockOutcome) : List BlockOutcome :=
  blocks.filter block_ok

/-- Metadata dict handed to the service-level `record_feedback` by the GUI
(the keys read on lines 282-299: `segment_id` is present-and-truthy checked,
a missing or empty string being falsy). -/
structure FrameMeta where
  segment_id : Option String
  filename : String
  timestamp : ℚ
  start_time : ℚ
  end_time : ℚ
  frame_path : String
deriving DecidableEq

/-- Source `DocumentAnalysisService.record_feedback` (lines 280-305): for a
segment-typed record it rebuilds a `VideoSegment` from the metadata — with
`key_frames=[]` — and forwards it to the engine's
`record_segment_feedback`; for a frame-typed record it rebuilds a
`VisualFrame` and forwards it to `record_feedback`.  Entity validation
exceptions are caught and reported as `false`; otherwise the call reports
`true`.  Returns the engine feedback state after the call and the boolean
result. -/
def service_record_feedback (fb : ClipSearchEngine.FeedbackState)
    (meta : FrameMeta) (is_positive : Bool) :
    ClipSearchEngine.FeedbackState × Bool :=
  let frame_branch :=
    match mk_visual_frame meta.filename meta.timestamp meta.frame_path with
    | .ok f => (ClipSearchEngine.record_feedback fb (some f) is_positive, true)
    | .error _ => (fb, false)
  match meta.segment_id with
  | none => frame_branch
  | some sid =>
    if sid = "" then frame_branch
    else
      match mk_video_segment meta.filename meta.start_time meta.end_time sid
          meta.frame_path [] with
      | .ok seg =>
        (ClipSearchEngine.record_segment_feedback fb (some seg) is_positive, true)
      | .error _ => (fb, false)

end DocumentAnalysisService

open ClipSearchEngine DocumentAnalysisService

/-! ## Theorems -/

/-- C2: `_is_duplicate` returns true exactly when the recency history holds
an entry with the same video filename whose stored timestamp differs from
the frame's by strictly less than `time_window`; a difference of exactly
`time_window` is not a duplicate; the test is symmetric in the two
timestamps; and `_is_duplicate_segment` is the same test applied to the
segment's representative timestamp, the midpoint
`(start_time + end_time) / 2`. -/
theorem C2_duplicate_window :
    ∀ (cfg : AnalysisConfig) (hist : History) (frame : VisualFrame),
      (is_duplicate cfg hist frame = true ↔
        ∃ p ∈ hist, p.1 = frame.video_filename ∧
          |frame.timestamp - p.2| < cfg.time_window)
      ∧ (∀ (file path : String) (t : ℚ),
          is_duplicate cfg [(file, t)] ⟨file, t + cfg.time_window, path⟩ = false)
      ∧ (∀ (file p1 p2 : String) (t1 t2 : ℚ),
          is_duplicate cfg [(file, t2)] ⟨file, t1, p1⟩ =
            is_duplicate cfg [(file, t1)] ⟨file, t2, p2⟩)
      ∧ ∀ seg : VideoSegment,
          is_duplicate_segment cfg hist seg =
            is_duplicate cfg hist
              ⟨seg.video_filename, seg.get_middle_timestamp, seg.preview_frame_path⟩
          ∧ seg.get_middle_timestamp = (seg.start_time + seg.end_time) / 2 := by
  intro cfg hist frame
  refine ⟨?_, ?_, ?_, fun seg => ⟨rfl, rfl⟩⟩
  · simp only [is_duplicate, List.any_eq_true, Bool.and_eq_true, beq_iff_eq,
      decide_eq_true_eq]
    constructor
    · rintro ⟨p, hp, h1, h2⟩
      exact ⟨p, hp, h1.symm, h2⟩
    · rintro ⟨p, hp, h1, h2⟩
      exact ⟨p, hp, h1.symm, h2⟩
  · intro file path t
    simp only [is_duplicate, List.any_cons, List.any_nil, Bool.or_false,
      Bool.and_eq_false_iff, beq_self_eq_true, decide_eq_false_iff_not, not_lt,
      add_sub_cancel_left]
    exact Or.inr (le_abs_self _)
  · intro file p1 p2 t1 t2
    simp [is_duplicate, abs_sub_comm t1 t2]

/-- C10: `search` returns the empty list whenever the engine is not ready,
and `search_segments` returns the empty list whenever the engine is not
ready, no segments are loaded, or no segment embeddings exist — neither
raises. -/
theorem C10_unready_search_empty :
    (∀ (e : EngineState) (th tg : List (ℕ × ℚ)) (q : String) (lim : ℕ),
        is_ready e = false → search e th tg q lim = [])
    ∧ ∀ (e : EngineState) (th tg : List (ℕ × ℚ)) (q : String) (lim : ℕ),
        is_ready e = false ∨ e.segments = [] ∨ e.segment_embeddings = none →
        search_segments e th tg q lim = [] := by
  constructor
  · intro e th tg q lim h
    simp [search, h]
  · intro e th tg q lim h
    rcases h with h | h | h
    · simp [search_segments, h]
    · simp [search_segments, h]
    · simp [search_segments, h]

/-- Witness for C10 at concrete inputs: a fresh engine with nothing indexed
is not ready and searches return `[]`; an engine with one indexed frame but
no segments still returns `[]` from `search_segments`. -/
theorem C10_unready_search_empty_witness :
    search ⟨[], [], none, none, initial_feedback⟩ [] [] "query" 12 = []
    ∧ search_segments ⟨[⟨"a.mp4", 1, "p"⟩], [], some (), none, initial_feedback⟩
        [] [] "query" 12 = [] :=
  ⟨C10_unready_search_empty.1 _ [] [] "query" 12 (by decide),
   C10_unready_search_empty.2 _ [] [] "query" 12 (Or.inr (Or.inl rfl))⟩

/-- Clamping to `[0, 1]` is monotone. -/
theorem clamp_unit_mono {a b : ℚ} (h : a ≤ b) :
    max 0 (min a 1) ≤ max 0 (min b 1) :=
  max_le_max le_rfl (min_le_min h le_rfl)

/-- Clamping a non-positive value to `[0, 1]` yields `0`. -/
theorem clamp_unit_nonpos {a : ℚ} (h : a ≤ 0) : max 0 (min a 1) = 0 :=
  max_eq_left ((min_le_left a 1).trans h)

/-- C5: the feedback adjustment multiplies by `0.2` for a key in the
negative set, else by `1.25` for a key in the positive set, else leaves the
score unchanged, clamping to `[0, 1]`; hence every adjusted score lies in
`[0, 1]`, and for a fixed raw score the adjusted score of a
negative-feedback key is at most that of a neutral key, which is at most
that of a positive-feedback key. -/
theorem C5_feedback_monotone :
    (∀ (fb : FeedbackState) (key : String) (s : ℚ),
        0 ≤ adjust_score fb key s ∧ adjust_score fb key s ≤ 1)
    ∧ ∀ (fb : FeedbackState) (s : ℚ) (kneg kneu kpos : String),
        kneg ∈ fb.negative → kpos ∈ fb.positive → kpos ∉ fb.negative →
        kneu ∉ fb.negative → kneu ∉ fb.positive →
        adjust_score fb kneg s ≤ adjust_score fb kneu s
        ∧ adjust_score fb kneu s ≤ adjust_score fb kpos s := by
  constructor
  · intro fb key s
    refine ⟨le_max_left _ _, max_le (by norm_num) (min_le_right _ _)⟩
  · intro fb s kneg kneu kpos hneg hpos hposn hneun hneup
    have eneg : adjust_score fb kneg s = max 0 (min (s * (2/10)) 1) := by
      simp [adjust_score, hneg]
    have eneu : adjust_score fb kneu s = max 0 (min s 1) := by
      simp [adjust_score, hneun, hneup]
    have epos : adjust_score fb kpos s = max 0 (min (s * (125/100)) 1) := by
      simp [adjust_score, hposn, hpos]
    rw [eneg, eneu, epos]
    rcases le_or_lt 0 s with hs | hs
    · exact ⟨clamp_unit_mono (by nlinarith), clamp_unit_mono (by nlinarith)⟩
    · rw [clamp_unit_nonpos (by nlinarith), clamp_unit_nonpos hs.le,
        clamp_unit_nonpos (by nlinarith)]
      exact ⟨le_rfl, le_rfl⟩

/-- Witness for C5 at a concrete feedback state and raw score. -/
theorem C5_feedback_monotone_witness :
    adjust_score ⟨{"p"}, {"n"}⟩ "n" (1/2) ≤ adjust_score ⟨{"p"}, {"n"}⟩ "x" (1/2)
    ∧ adjust_score ⟨{"p"}, {"n"}⟩ "x" (1/2) ≤ adjust_score ⟨{"p"}, {"n"}⟩ "p" (1/2) :=
  C5_feedback_monotone.2 ⟨{"p"}, {"n"}⟩ (1/2) "n" "x" "p" (by decide) (by decide)
    (by decide) (by decide) (by decide)

/-- One `record_feedback` call preserves disjointness of the two sets. -/
theorem record_feedback_preserves_disjoint (fb : FeedbackState)
    (frame : Option VisualFrame) (b : Bool)
    (h : fb.positive ∩ fb.negative = ∅) :
    (record_feedback fb frame b).positive ∩ (record_feedback fb frame b).negative
      = ∅ := by
  rw [Finset.eq_empty_iff_forall_not_mem] at h ⊢
  match frame with
  | none => exact h
  | some f =>
    intro k hk
    rcases b with _ | _
    · have e : record_feedback fb (some f) false =
          ⟨fb.positive.erase (feedback_key f),
           insert (feedback_key f) fb.negative⟩ := rfl
      rw [e] at hk
      simp only [Finset.mem_inter, Finset.mem_erase, Finset.mem_insert] at hk
      rcases hk with ⟨⟨hk1, hk2⟩, hk3⟩
      rcases hk3 with h3 | h3
      · exact hk1 h3
      · exact h k (Finset.mem_inter.2 ⟨hk2, h3⟩)
    · have e : record_feedback fb (some f) true =
          ⟨insert (feedback_key f) fb.positive,
           fb.negative.erase (feedback_key f)⟩ := rfl
      rw [e] at hk
      simp only [Finset.mem_inter, Finset.mem_insert, Finset.mem_erase] at hk
      rcases hk with ⟨hk1, hk2, hk3⟩
      rcases hk1 with h1 | h1
      · exact hk2 h1
      · exact h k (Finset.mem_inter.2 ⟨h1, hk3⟩)

/-- Folding `record_feedback` over any operation sequence preserves
disjointness. -/
theorem foldl_record_feedback_disjoint :
    ∀ (ops : List (Option VisualFrame × Bool)) (fb : FeedbackState),
      fb.positive ∩ fb.negative = ∅ →
      ((ops.foldl (fun st p => record_feedback st p.1 p.2) fb).positive
        ∩ (ops.foldl (fun st p => record_feedback st p.1 p.2) fb).negative) = ∅ := by
  intro ops
  induction ops with
  | nil => intro fb h; exact h
  | cons op rest ih =>
    intro fb h
    exact ih _ (record_feedback_preserves_disjoint fb op.1 op.2 h)

/-- C4: every `record_feedback` call preserves mutual exclusivity of the
positive and negative sets (recording one label removes the key from the
other set), so after any sequence of record operations starting from the
engine's initial empty feedback state, no key is in both sets. -/
theorem C4_feedback_exclusive :
    (∀ (fb : FeedbackState) (frame : Option VisualFrame) (b : Bool),
        fb.positive ∩ fb.negative = ∅ →
        (record_feedback fb frame b).positive
          ∩ (record_feedback fb frame b).negative = ∅)
    ∧ ∀ ops : List (Option VisualFrame × Bool),
        ((ops.foldl (fun st p => record_feedback st p.1 p.2)
            initial_feedback).positive
          ∩ (ops.foldl (fun st p => record_feedback st p.1 p.2)
            initial_feedback).negative) = ∅ :=
  ⟨record_feedback_preserves_disjoint,
   fun ops => foldl_record_feedback_disjoint ops initial_feedback (by decide)⟩

/-- Witness for C4: flipping a previously negative key to positive at a
concrete feedback state keeps the sets disjoint. -/
theorem C4_feedback_exclusive_witness :
    (record_feedback ⟨{"a"}, {"k"}⟩ (some ⟨"v.mp4", 1, "p"⟩) true).positive
      ∩ (record_feedback ⟨{"a"}, {"k"}⟩ (some ⟨"v.mp4", 1, "p"⟩) true).negative
      = ∅ :=
  C4_feedback_exclusive.1 ⟨{"a"}, {"k"}⟩ (some ⟨"v.mp4", 1, "p"⟩) true (by decide)

/-- Folding `_add_to_history` from an in-bound history keeps, in order, the
suffix of appended entries that fits inside `history_size`. -/
theorem foldl_add_to_history (cfg : AnalysisConfig) :
    ∀ (fs : List VisualFrame) (h0 : History),
      h0.length ≤ cfg.history_size →
      fs.foldl (add_to_history cfg) h0 =
        (h0 ++ fs.map fun f => (f.video_filename, f.timestamp)).drop
          ((h0.length + fs.length) - cfg.history_size) := by
  intro fs
  induction fs with
  | nil =>
    intro h0 h
    simp [Nat.sub_eq_zero_of_le h]
  | cons f rest ih =>
    intro h0 h
    rcases Nat.lt_or_ge h0.length cfg.history_size with hlt | hge
    · have hstep : add_to_history cfg h0 f =
          h0 ++ [(f.video_filename, f.timestamp)] := by
        rw [add_to_history, if_neg]
        simp only [List.length_append, List.length_cons, List.length_nil]
        omega
      rw [List.foldl_cons, hstep, ih _ (by simp; omega)]
      simp only [List.length_append, List.length_cons, List.length_nil,
        List.map_cons, List.append_assoc, List.singleton_append]
      congr 1
      omega
    · have heq : h0.length = cfg.history_size := le_antisymm h hge
      have hstep : add_to_history cfg h0 f =
          (h0 ++ [(f.video_filename, f.timestamp)]).drop 1 := by
        rw [add_to_history, if_pos]
        simp only [List.length_append, List.length_cons, List.length_nil]
        omega
      have hlen1 : (1 : ℕ) ≤ (h0 ++ [(f.video_filename, f.timestamp)]).length := by
        simp
      have hlen : ((h0 ++ [(f.video_filename, f.timestamp)]).drop 1).length
          ≤ cfg.history_size := by
        simp only [List.length_drop, List.length_append, List.length_cons,
          List.length_nil]
        omega
      rw [List.foldl_cons, hstep, ih _ hlen]
      rw [List.length_drop, ← List.drop_append_of_le_length hlen1,
        List.drop_drop]
      simp only [List.length_append, List.length_cons, List.length_nil,
        List.map_cons, List.append_assoc, List.singleton_append]
      congr 1
      omega

/-- C3: `_add_segment_to_history` records the segment's midpoint through
the same code path as `_add_to_history`; when the history would exceed
`history_size` the oldest entry is evicted, so folding additions from an
empty history always leaves exactly the most recent `history_size` entries
in order — in particular after `history_size + m` unique additions the
history is the last `history_size` entries (strict FIFO) and has length
exactly `history_size`. -/
theorem C3_history_fifo :
    ∀ cfg : AnalysisConfig,
      (∀ (hist : History) (seg : VideoSegment),
          add_segment_to_history cfg hist seg =
            add_to_history cfg hist
              ⟨seg.video_filename, seg.get_middle_timestamp,
               seg.preview_frame_path⟩)
      ∧ (∀ fs : List VisualFrame,
          fs.foldl (add_to_history cfg) [] =
            (fs.map fun f => (f.video_filename, f.timestamp)).drop
              (fs.length - cfg.history_size))
      ∧ ∀ (fs : List VisualFrame) (m : ℕ),
          fs.length = cfg.history_size + m →
          fs.foldl (add_to_history cfg) [] =
            (fs.map fun f => (f.video_filename, f.timestamp)).drop m
          ∧ (fs.foldl (add_to_history cfg) []).length = cfg.history_size := by
  intro cfg
  have base : ∀ fs : List VisualFrame,
      fs.foldl (add_to_history cfg) [] =
        (fs.map fun f => (f.video_filename, f.timestamp)).drop
          (fs.length - cfg.history_size) := by
    intro fs
    have := foldl_add_to_history cfg fs [] (by simp)
    simpa using this
  refine ⟨fun hist seg => rfl, base, ?_⟩
  intro fs m hm
  have h1 : fs.foldl (add_to_history cfg) [] =
      (fs.map fun f => (f.video_filename, f.timestamp)).drop m := by
    rw [base fs, hm]
    congr 1
    omega
  refine ⟨h1, ?_⟩
  rw [h1]
  simp only [List.length_drop, List.length_map, hm]
  omega

/-- Witness for C3: with `history_size = 2`, after three unique additions
the history is exactly the last two entries, in order. -/
theorem C3_history_fifo_witness :
    [(⟨"a", 1, "p"⟩ : VisualFrame), ⟨"b", 2, "p"⟩, ⟨"c", 3, "p"⟩].foldl
        (add_to_history ⟨1/4, 2, 5⟩) [] = [("b", 2), ("c", 3)]
    ∧ ([(⟨"a", 1, "p"⟩ : VisualFrame), ⟨"b", 2, "p"⟩, ⟨"c", 3, "p"⟩].foldl
        (add_to_history ⟨1/4, 2, 5⟩) []).length = 2 := by
  have h := (C3_history_fifo ⟨1/4, 2, 5⟩).2.2
    [⟨"a", 1, "p"⟩, ⟨"b", 2, "p"⟩, ⟨"c", 3, "p"⟩] 1 (by decide)
  exact ⟨h.1, h.2⟩

/-- Scan loop of the frame selection: equal to searching the
threshold-qualifying prefix for the first non-duplicate, which makes the
early break at the first sub-threshold score explicit. -/
theorem find_unique_frame_eq (cfg : AnalysisConfig) (hist : History) :
    ∀ l : List (VisualFrame × ℚ),
      find_unique_frame cfg hist l =
        (l.takeWhile fun p => decide (cfg.score_threshold ≤ p.2)).find?
          fun p => !is_duplicate cfg hist p.1 := by
  intro l
  induction l with
  | nil => rfl
  | cons hd tl ih =>
    obtain ⟨f, s⟩ := hd
    by_cases hs : s < cfg.score_threshold
    · have hq : decide (cfg.score_threshold ≤ s) = false := by
        simpa using hs
      simp [find_unique_frame, hs, List.takeWhile_cons, hq]
    · have hq : decide (cfg.score_threshold ≤ s) = true := by
        simpa using not_lt.1 hs
      by_cases hdup : is_duplicate cfg hist f = true
      · simp [find_unique_frame, hs, List.takeWhile_cons, hq, hdup, ih]
      · simp [find_unique_frame, hs, List.takeWhile_cons, hq, hdup]

/-- Scan loop of the segment selection, characterized the same way. -/
theorem find_unique_segment_eq (cfg : AnalysisConfig) (hist : History) :
    ∀ l : List (VideoSegment × ℚ),
      find_unique_segment cfg hist l =
        (l.takeWhile fun p => decide (cfg.score_threshold ≤ p.2)).find?
          fun p => !is_duplicate_segment cfg hist p.1 := by
  intro l
  induction l with
  | nil => rfl
  | cons hd tl ih =>
    obtain ⟨sg, s⟩ := hd
    by_cases hs : s < cfg.score_threshold
    · have hq : decide (cfg.score_threshold ≤ s) = false := by
        simpa using hs
      simp [find_unique_segment, hs, List.takeWhile_cons, hq]
    · have hq : decide (cfg.score_threshold ≤ s) = true := by
        simpa using not_lt.1 hs
      by_cases hdup : is_duplicate_segment cfg hist sg = true
      · simp [find_unique_segment, hs, List.takeWhile_cons, hq, hdup, ih]
      · simp [find_unique_segment, hs, List.takeWhile_cons, hq, hdup]

/-- Unfolding equation of the frame selection on a non-empty list. -/
theorem process_frame_results_cons (cfg : AnalysisConfig) (hist : History)
    (bf : VisualFrame) (bs : ℚ) (rest : List (VisualFrame × ℚ)) :
    process_frame_results cfg hist ((bf, bs) :: rest) =
      match find_unique_frame cfg hist ((bf, bs) :: rest) with
      | some (f, s) => ⟨some (f, s), false, add_to_history cfg hist f⟩
      | none =>
        if cfg.score_threshold ≤ bs then ⟨some (bf, bs), true, hist⟩
        else ⟨none, false, hist⟩ := rfl

/-- Unfolding equation of the segment selection on a non-empty list. -/
theorem process_segment_results_cons (cfg : AnalysisConfig) (hist : History)
    (bsg : VideoSegment) (bs : ℚ) (rest : List (VideoSegment × ℚ)) :
    process_segment_results cfg hist ((bsg, bs) :: rest) =
      match find_unique_segment cfg hist ((bsg, bs) :: rest) with
      | some (sg, s) => ⟨some (sg, s), false, add_segment_to_history cfg hist sg⟩
      | none =>
        if cfg.score_threshold ≤ bs then ⟨some (bsg, bs), true, hist⟩
        else ⟨none, false, hist⟩ := rfl

/-- C1: the three-tier selection policy.  On a non-empty candidate list
sorted non-increasingly by score, scanning stops at the first candidate
below the threshold (only the threshold-qualifying prefix is searched); the
first qualifying non-duplicate, when one exists, is selected uniquely and
recorded into the history; otherwise the head candidate is selected with
`took_duplicate = true` and an unchanged history when its score meets the
inclusive threshold, and nothing is selected when it does not.  An empty
candidate list selects nothing without raising.  The same holds for the
segment variant. -/
theorem C1_selection_policy :
    ∀ (cfg : AnalysisConfig) (hist : History),
      (process_frame_results cfg hist [] = ⟨none, false, hist⟩
        ∧ process_block cfg hist [] [] = (none, hist))
      ∧ (∀ (l : List (VisualFrame × ℚ)) (best : VisualFrame × ℚ)
            (rest : List (VisualFrame × ℚ)),
          l = best :: rest →
          l.Sorted (fun a b => b.2 ≤ a.2) →
          (∀ u, ((l.takeWhile fun p => decide (cfg.score_threshold ≤ p.2)).find?
                fun p => !is_duplicate cfg hist p.1) = some u →
            process_frame_results cfg hist l =
              ⟨some u, false, add_to_history cfg hist u.1⟩)
          ∧ (((l.takeWhile fun p => decide (cfg.score_threshold ≤ p.2)).find?
                fun p => !is_duplicate cfg hist p.1) = none →
              cfg.score_threshold ≤ best.2 →
            process_frame_results cfg hist l = ⟨some best, true, hist⟩)
          ∧ (((l.takeWhile fun p => decide (cfg.score_threshold ≤ p.2)).find?
                fun p => !is_duplicate cfg hist p.1) = none →
              best.2 < cfg.score_threshold →
            process_frame_results cfg hist l = ⟨none, false, hist⟩))
      ∧ ∀ (l : List (VideoSegment × ℚ)) (best : VideoSegment × ℚ)
            (rest : List (VideoSegment × ℚ)),
          l = best :: rest →
          l.Sorted (fun a b => b.2 ≤ a.2) →
          (∀ u, ((l.takeWhile fun p => decide (cfg.score_threshold ≤ p.2)).find?
                fun p => !is_duplicate_segment cfg hist p.1) = some u →
            process_segment_results cfg hist l =
              ⟨some u, false, add_segment_to_history cfg hist u.1⟩)
          ∧ (((l.takeWhile fun p => decide (cfg.score_threshold ≤ p.2)).find?
                fun p => !is_duplicate_segment cfg hist p.1) = none →
              cfg.score_threshold ≤ best.2 →
            process_segment_results cfg hist l = ⟨some best, true, hist⟩)
          ∧ (((l.takeWhile fun p => decide (cfg.score_threshold ≤ p.2)).find?
                fun p => !is_duplicate_segment cfg hist p.1) = none →
              best.2 < cfg.score_threshold →
            process_segment_results cfg hist l = ⟨none, false, hist⟩) := by
  intro cfg hist
  refine ⟨⟨rfl, rfl⟩, ?_, ?_⟩
  · rintro l ⟨bf, bs⟩ rest rfl _
    refine ⟨?_, ?_, ?_⟩
    · rintro ⟨u, us⟩ hfind
      have hu : find_unique_frame cfg hist ((bf, bs) :: rest) = some (u, us) := by
        rw [find_unique_frame_eq]; exact hfind
      rw [process_frame_results_cons, hu]
    · intro hfind hbest
      have hu : find_unique_frame cfg hist ((bf, bs) :: rest) = none := by
        rw [find_unique_frame_eq]; exact hfind
      rw [process_frame_results_cons, hu]
      exact if_pos hbest
    · intro hfind hbest
      have hu : find_unique_frame cfg hist ((bf, bs) :: rest) = none := by
        rw [find_unique_frame_eq]; exact hfind
      rw [process_frame_results_cons, hu]
      exact if_neg (not_le.2 hbest)
  · rintro l ⟨bsg, bs⟩ rest rfl _
    refine ⟨?_, ?_, ?_⟩
    · rintro ⟨u, us⟩ hfind
      have hu : find_unique_segment cfg hist ((bsg, bs) :: rest) = some (u, us) := by
        rw [find_unique_segment_eq]; exact hfind
      rw [process_segment_results_cons, hu]
    · intro hfind hbest
      have hu : find_unique_segment cfg hist ((bsg, bs) :: rest) = none := by
        rw [find_unique_segment_eq]; exact hfind
      rw [process_segment_results_cons, hu]
      exact if_pos hbest
    · intro hfind hbest
      have hu : find_unique_segment cfg hist ((bsg, bs) :: rest) = none := by
        rw [find_unique_segment_eq]; exact hfind
      rw [process_segment_results_cons, hu]
      exact if_neg (not_le.2 hbest)

/-- Witness for C1 at a concrete sorted candidate list: an empty history
makes the head candidate unique, so it is selected and recorded. -/
theorem C1_selection_policy_witness :
    process_frame_results default_config []
        [(⟨"a.mp4", 10, "p"⟩, 1/2), (⟨"b.mp4", 20, "q"⟩, 1/3)] =
      ⟨some (⟨"a.mp4", 10, "p"⟩, 1/2), false, [("a.mp4", 10)]⟩ := by
  have h := ((C1_selection_policy default_config []).2.1
      [(⟨"a.mp4", 10, "p"⟩, 1/2), (⟨"b.mp4", 20, "q"⟩, 1/3)]
      (⟨"a.mp4", 10, "p"⟩, 1/2) [(⟨"b.mp4", 20, "q"⟩, 1/3)] rfl
      (by simp [List.sorted_cons]; norm_num)).1 (⟨"a.mp4", 10, "p"⟩, 1/2)
      (by
        simp only [List.takeWhile_cons, List.find?_cons]
        norm_num [default_config, is_duplicate])
  exact h

/-- Results and final history of the block loop do not depend on the
progress counters (which only shape event payloads). -/
theorem block_loop_counters (cfg : AnalysisConfig) :
    ∀ (bs : List BlockOutcome) (hist : History) (i t i2 t2 : ℕ),
      (block_loop cfg bs hist i t).1 = (block_loop cfg bs hist i2 t2).1
      ∧ (block_loop cfg bs hist i t).2.2 = (block_loop cfg bs hist i2 t2).2.2 := by
  intro bs
  induction bs with
  | nil => intro hist i t i2 t2; exact ⟨rfl, rfl⟩
  | cons b rest ih =>
    intro hist i t i2 t2
    cases b with
    | raises msg =>
      simp only [block_loop]
      exact ih hist (i + 1) t (i2 + 1) t2
    | ok segs frames =>
      cases hsel : (process_block cfg hist segs frames).1 with
      | some sel =>
        simp only [block_loop, hsel]
        exact ⟨by rw [(ih _ (i + 1) t (i2 + 1) t2).1],
          (ih _ (i + 1) t (i2 + 1) t2).2⟩
      | none =>
        simp only [block_loop, hsel]
        exact ih _ (i + 1) t (i2 + 1) t2

/-- The block loop emits exactly one per-block progress event per block,
raising blocks included. -/
theorem block_loop_progress_count (cfg : AnalysisConfig) :
    ∀ (bs : List BlockOutcome) (hist : History) (i t : ℕ),
      ((block_loop cfg bs hist i t).2.1.countP is_block_progress) = bs.length := by
  intro bs
  induction bs with
  | nil => intro hist i t; simp [block_loop]
  | cons b rest ih =>
    intro hist i t
    cases b with
    | raises msg =>
      simp [block_loop, List.countP_cons, is_block_progress, ih]
    | ok segs frames =>
      cases hsel : (process_block cfg hist segs frames).1 with
      | some sel =>
        simp [block_loop, hsel, List.countP_cons, is_block_progress, ih]
      | none =>
        simp [block_loop, hsel, List.countP_cons, is_block_progress, ih]

/-- Removing the raising blocks does not change the selections or the final
history of the block loop: a bad block is skipped, never aborts. -/
theorem block_loop_ok_blocks (cfg : AnalysisConfig) :
    ∀ (bs : List BlockOutcome) (hist : History) (i t i2 t2 : ℕ),
      (block_loop cfg bs hist i t).1
          = (block_loop cfg (ok_blocks bs) hist i2 t2).1
      ∧ (block_loop cfg bs hist i t).2.2
          = (block_loop cfg (ok_blocks bs) hist i2 t2).2.2 := by
  intro bs
  induction bs with
  | nil => intro hist i t i2 t2; exact ⟨rfl, rfl⟩
  | cons b rest ih =>
    intro hist i t i2 t2
    cases b with
    | raises msg =>
      have he : ok_blocks (BlockOutcome.raises msg :: rest) = ok_blocks rest := by
        simp [ok_blocks, List.filter_cons, block_ok]
      rw [he]
      simp only [block_loop]
      exact ih hist (i + 1) t i2 t2
    | ok segs frames =>
      have he : ok_blocks (BlockOutcome.ok segs frames :: rest)
          = BlockOutcome.ok segs frames :: ok_blocks rest := by
        simp [ok_blocks, List.filter_cons, block_ok]
      rw [he]
      cases hsel : (process_block cfg hist segs frames).1 with
      | some sel =>
        simp only [block_loop, hsel]
        exact ⟨by rw [(ih _ (i + 1) t (i2 + 1) t2).1],
          (ih _ (i + 1) t (i2 + 1) t2).2⟩
      | none =>
        simp only [block_loop, hsel]
        exact ih _ (i + 1) t (i2 + 1) t2

/-- The event stream of a run always ends in the terminal event. -/
theorem events_getLast (x : ProgressEvent) (l : List ProgressEvent) :
    (x :: (l ++ [ProgressEvent.finished])).getLast? = some .finished := by
  rw [← List.cons_append, List.getLast?_concat]

/-- C9: during a run, a per-block progress event is emitted for every block
regardless of outcome, the terminal `finished` event is always the last
event emitted (even if every block raised), and blocks that raise are
skipped without affecting the selections or the final history — the run's
results equal those of the run restricted to its non-raising blocks. -/
theorem C9_per_block_isolation :
    ∀ (cfg : AnalysisConfig) (hist : History) (blocks : List BlockOutcome),
      (analyze_document cfg hist blocks).events.getLast? = some .finished
      ∧ (analyze_document cfg hist blocks).events.countP is_block_progress
          = blocks.length
      ∧ (analyze_document cfg hist blocks).results
          = (analyze_document cfg hist (ok_blocks blocks)).results
      ∧ (analyze_document cfg hist blocks).history
          = (analyze_document cfg hist (ok_blocks blocks)).history := by
  intro cfg hist blocks
  refine ⟨?_, ?_, ?_, ?_⟩
  · exact events_getLast _ _
  · simp only [analyze_document]
    simp [List.countP_cons, List.countP_append, is_block_progress,
      block_loop_progress_count]
  · exact (block_loop_ok_blocks cfg blocks hist 1 blocks.length 1
      (ok_blocks blocks).length).1
  · exact (block_loop_ok_blocks cfg blocks hist 1 blocks.length 1
      (ok_blocks blocks).length).2

/-- Keyword loop invariant: starting below the cap from a deduplicated,
filtered accumulator, the collected keywords stay within 12, remain
distinct, and each is a stop-word-free token of at least 4 characters. -/
theorem collect_keywords_bounded (stop : List String) :
    ∀ (toks acc : List String),
      acc.length < 12 → acc.Nodup →
      (∀ t ∈ acc, 4 ≤ t.length ∧ stop.contains t = false) →
      (collect_keywords stop toks acc).length ≤ 12
      ∧ (collect_keywords stop toks acc).Nodup
      ∧ ∀ t ∈ collect_keywords stop toks acc,
          4 ≤ t.length ∧ stop.contains t = false := by
  intro toks
  induction toks with
  | nil =>
    intro acc hlen hnd hprop
    exact ⟨Nat.le_of_lt hlen, hnd, hprop⟩
  | cons t rest ih =>
    intro acc hlen hnd hprop
    by_cases hskip : (decide (t.length < 4) || stop.contains t) = true
    · simp only [collect_keywords, if_pos hskip]
      exact ih acc hlen hnd hprop
    · have hparts : ¬ (t.length < 4) ∧ stop.contains t = false := by
        simp only [Bool.or_eq_true, decide_eq_true_eq, not_or,
          Bool.not_eq_true] at hskip
        exact hskip
      simp only [collect_keywords, if_neg hskip]
      by_cases hmem : (acc.contains t) = true
      · rw [if_pos hmem, if_neg (by omega)]
        exact ih acc hlen hnd hprop
      · have hnotmem : t ∉ acc := by simpa using hmem
        have hnd2 : (acc ++ [t]).Nodup := by
          simp [List.nodup_append, hnd, hnotmem]
        have hprop2 : ∀ x ∈ acc ++ [t], 4 ≤ x.length ∧ stop.contains x = false := by
          intro x hx
          rcases List.mem_append.1 hx with hx | hx
          · exact hprop x hx
          · rcases List.mem_singleton.1 hx with rfl
            exact ⟨not_lt.1 hparts.1, hparts.2⟩
        rw [if_neg hmem]
        by_cases hfull : 12 ≤ (acc ++ [t]).length
        · rw [if_pos hfull]
          refine ⟨?_, hnd2, hprop2⟩
          simp only [List.length_append, List.length_cons, List.length_nil]
          omega
        · rw [if_neg hfull]
          refine ih (acc ++ [t]) ?_ hnd2 hprop2
          simp only [List.length_append, List.length_cons, List.length_nil] at hfull ⊢
          omega

/-- Bigram loop invariant: starting below the cap, the collected bigrams
stay within 4 and each phrase has at least 8 characters. -/
theorem collect_bigrams_bounded (stop : List String) :
    ∀ (toks acc : List String),
      acc.length < 4 → (∀ p ∈ acc, 8 ≤ p.length) →
      (collect_bigrams stop toks acc).length ≤ 4
      ∧ ∀ p ∈ collect_bigrams stop toks acc, 8 ≤ p.length := by
  intro toks
  induction toks with
  | nil =>
    intro acc hlen hprop
    exact ⟨Nat.le_of_lt hlen, hprop⟩
  | cons a tail ih =>
    intro acc hlen hprop
    cases tail with
    | nil => exact ⟨Nat.le_of_lt hlen, hprop⟩
    | cons b rest =>
      by_cases hstop : (stop.contains a || stop.contains b) = true
      · simp only [collect_bigrams, if_pos hstop]
        exact ih acc hlen hprop
      · simp only [collect_bigrams, if_neg hstop]
        by_cases hp : 8 ≤ (a ++ " " ++ b).length
        · rw [if_pos hp]
          have hprop2 : ∀ p ∈ acc ++ [a ++ " " ++ b], 8 ≤ p.length := by
            intro p hpp
            rcases List.mem_append.1 hpp with hpp | hpp
            · exact hprop p hpp
            · rcases List.mem_singleton.1 hpp with rfl
              exact hp
          by_cases hfull : 4 ≤ (acc ++ [a ++ " " ++ b]).length
          · rw [if_pos hfull]
            refine ⟨?_, hprop2⟩
            simp only [List.length_append, List.length_cons, List.length_nil]
            omega
          · rw [if_neg hfull]
            refine ih (acc ++ [a ++ " " ++ b]) ?_ hprop2
            simp only [List.length_append, List.length_cons,
              List.length_nil] at hfull ⊢
            omega
        · rw [if_neg hp, if_neg (by omega)]
          exact ih acc hlen hprop

/-- C8 (amended): the extracted tag list is built from up to 12 distinct
stop-word-free tokens of at least 4 characters followed by up to 4
adjacent-token bigrams of at least 8 characters, and the combined list is
truncated to at most 15 entries — so a text rich enough in both yields 15
entries, not 16. -/
theorem C8_tag_caps :
    (∀ text : String,
        (collect_keywords stop_words (tokenize text) []).length ≤ 12
        ∧ (collect_keywords stop_words (tokenize text) []).Nodup
        ∧ (∀ t ∈ collect_keywords stop_words (tokenize text) [],
            4 ≤ t.length ∧ stop_words.contains t = false)
        ∧ (collect_bigrams stop_words (tokenize text) []).length ≤ 4
        ∧ (∀ p ∈ collect_bigrams stop_words (tokenize text) [], 8 ≤ p.length)
        ∧ ((collect_keywords stop_words (tokenize text) []
            ++ collect_bigrams stop_words (tokenize text) []).take 15).length ≤ 15)
    ∧ (extract_tags
        "alpha bravo charlie delta echos forte golfy hotel india juliet kilos limas").length
      = 15 := by
  constructor
  · intro text
    have hk := collect_keywords_bounded stop_words (tokenize text) []
      (by simp) List.nodup_nil (by intro t ht; cases ht)
    have hb := collect_bigrams_bounded stop_words (tokenize text) []
      (by simp) (by intro p hp; cases hp)
    refine ⟨hk.1, hk.2.1, hk.2.2, hb.1, hb.2, ?_⟩
    rw [List.length_take]
    omega
  · decide

/-- C8 counterexample: a text rich enough to produce the full 12 keywords
and 4 bigrams yields 15 extracted entries, not the claimed 12 + 4 = 16 —
the combined list is truncated to 15 before joining. -/
theorem C8_counterexample :
    (collect_keywords stop_words
        (tokenize
          "alpha bravo charlie delta echos forte golfy hotel india juliet kilos limas")
        []).length = 12
    ∧ (collect_bigrams stop_words
        (tokenize
          "alpha bravo charlie delta echos forte golfy hotel india juliet kilos limas")
        []).length = 4
    ∧ (extract_tags
        "alpha bravo charlie delta echos forte golfy hotel india juliet kilos limas").length
      ≠ 12 + 4 := by
  refine ⟨by decide, by decide, by decide⟩

/-- C6 (amended): `analyze_document` never clears `used_frames_history` —
a run starts duplicate detection from whatever history the service instance
already holds, so the history persists across runs on the same instance: a
run over no blocks leaves the prior history intact, and a sole
above-threshold candidate that duplicates an entry recorded by an earlier
run is selected through the duplicate tier, leaving the history unchanged. -/
theorem C6_history_persists :
    (∀ (cfg : AnalysisConfig) (hist : History),
        (analyze_document cfg hist []).history = hist)
    ∧ ∀ (cfg : AnalysisConfig) (hist : History) (f : VisualFrame) (s : ℚ),
        is_duplicate cfg hist f = true → cfg.score_threshold ≤ s →
        (analyze_document cfg hist [.ok [] [(f, s)]]).results = [.frame f s]
        ∧ (analyze_document cfg hist [.ok [] [(f, s)]]).history = hist := by
  constructor
  · intro cfg hist; rfl
  · intro cfg hist f s hdup hs
    have hfu : find_unique_frame cfg hist [(f, s)] = none := by
      simp [find_unique_frame, not_lt.2 hs, hdup]
    have hpf : process_frame_results cfg hist [(f, s)] = ⟨some (f, s), true, hist⟩ := by
      rw [process_frame_results_cons, hfu]
      exact if_pos hs
    have hpb : process_block cfg hist [] [(f, s)] = (some (.frame f s), hist) := by
      simp [process_block, hpf]
    exact ⟨by simp [analyze_document, block_loop, hpb],
      by simp [analyze_document, block_loop, hpb]⟩

/-- Witness for C6 (amended) at a concrete prior history: the entry
`("a.mp4", 10)` left by an earlier run makes the candidate at timestamp 12
a duplicate, so it is taken via the fallback tier and the history stays. -/
theorem C6_history_persists_witness :
    (analyze_document default_config [("a.mp4", 10)]
        [.ok [] [(⟨"a.mp4", 12, "p"⟩, 1/2)]]).results
      = [.frame ⟨"a.mp4", 12, "p"⟩ (1/2)]
    ∧ (analyze_document default_config [("a.mp4", 10)]
        [.ok [] [(⟨"a.mp4", 12, "p"⟩, 1/2)]]).history = [("a.mp4", 10)] := by
  have h := C6_history_persists.2 default_config [("a.mp4", 10)]
    ⟨"a.mp4", 12, "p"⟩ (1/2)
    (by simp [is_duplicate, default_config]; norm_num)
    (by norm_num [default_config])
  exact h

/-- Unfolding equation of `_process_block` when the segment search returned
nothing. -/
theorem process_block_no_segments (cfg : AnalysisConfig) (hist : History)
    (frames : List (VisualFrame × ℚ)) :
    process_block cfg hist [] frames =
      ((process_frame_results cfg hist frames).final.map
          fun p => BlockSelection.frame p.1 p.2,
        (process_frame_results cfg hist frames).history) := rfl

/-- Evaluation of a one-block run whose block selects a candidate. -/
theorem analyze_document_one_sel (cfg : AnalysisConfig) (hist : History)
    (segs : List (VideoSegment × ℚ)) (frames : List (VisualFrame × ℚ))
    (sel : BlockSelection) (h2 : History)
    (h : process_block cfg hist segs frames = (some sel, h2)) :
    analyze_document cfg hist [.ok segs frames] =
      ⟨[sel],
       [.status_blocks_found 1, .status_processing_block 1 1, .result_found,
        .finished], h2⟩ := by
  simp only [analyze_document, block_loop, h]
  rfl

/-- C6 counterexample: on one service instance, a first run selects the
frame at `("a.mp4", 10)` and leaves it in the history; a second
`analyze_document` call therefore starts with a non-empty history and its
outcome differs from the outcome the same call would have on an empty
(reset) history — the first run influences duplicate detection in the
second, contradicting the claim. -/
theorem C6_counterexample :
    (analyze_document default_config []
        [.ok [] [(⟨"a.mp4", 10, "p"⟩, 1/2)]]).history = [("a.mp4", 10)]
    ∧ analyze_document default_config
        (analyze_document default_config []
          [.ok [] [(⟨"a.mp4", 10, "p"⟩, 1/2)]]).history
        [.ok [] [(⟨"a.mp4", 12, "q"⟩, 1/2)]]
      ≠ analyze_document default_config []
        [.ok [] [(⟨"a.mp4", 12, "q"⟩, 1/2)]] := by
  have hnl : ¬ ((1/2 : ℚ) < default_config.score_threshold) := by
    norm_num [default_config]
  have hle : default_config.score_threshold ≤ (1/2 : ℚ) := not_lt.1 hnl
  have hfu1 : find_unique_frame default_config [] [(⟨"a.mp4", 10, "p"⟩, 1/2)]
      = some (⟨"a.mp4", 10, "p"⟩, 1/2) := by
    simp [find_unique_frame, hnl, hle, is_duplicate]
    norm_num [default_config]
  have hpb1 : process_block default_config [] [] [(⟨"a.mp4", 10, "p"⟩, 1/2)]
      = (some (.frame ⟨"a.mp4", 10, "p"⟩ (1/2)), [("a.mp4", 10)]) := by
    rw [process_block_no_segments, process_frame_results_cons, hfu1]
    rfl
  have hrun1 := analyze_document_one_sel default_config [] []
    [(⟨"a.mp4", 10, "p"⟩, 1/2)] (.frame ⟨"a.mp4", 10, "p"⟩ (1/2))
    [("a.mp4", 10)] hpb1
  refine ⟨by rw [hrun1], ?_⟩
  rw [hrun1]
  have hdup2 : is_duplicate default_config [("a.mp4", 10)] ⟨"a.mp4", 12, "q"⟩
      = true := by
    simp [is_duplicate, default_config]
    norm_num
  have hfu2a : find_unique_frame default_config [("a.mp4", 10)]
      [(⟨"a.mp4", 12, "q"⟩, 1/2)] = none := by
    simp [find_unique_frame, hnl, hle, hdup2]
  have hpb2a : process_block default_config [("a.mp4", 10)] []
      [(⟨"a.mp4", 12, "q"⟩, 1/2)]
      = (some (.frame ⟨"a.mp4", 12, "q"⟩ (1/2)), [("a.mp4", 10)]) := by
    rw [process_block_no_segments, process_frame_results_cons, hfu2a,
      if_pos hle]
    rfl
  have hruna := analyze_document_one_sel default_config [("a.mp4", 10)] []
    [(⟨"a.mp4", 12, "q"⟩, 1/2)] (.frame ⟨"a.mp4", 12, "q"⟩ (1/2))
    [("a.mp4", 10)] hpb2a
  have hfu2b : find_unique_frame default_config [] [(⟨"a.mp4", 12, "q"⟩, 1/2)]
      = some (⟨"a.mp4", 12, "q"⟩, 1/2) := by
    simp [find_unique_frame, hnl, hle, is_duplicate]
    norm_num [default_config]
  have hpb2b : process_block default_config [] [] [(⟨"a.mp4", 12, "q"⟩, 1/2)]
      = (some (.frame ⟨"a.mp4", 12, "q"⟩ (1/2)), [("a.mp4", 12)]) := by
    rw [process_block_no_segments, process_frame_results_cons, hfu2b]
    rfl
  have hrunb := analyze_document_one_sel default_config [] []
    [(⟨"a.mp4", 12, "q"⟩, 1/2)] (.frame ⟨"a.mp4", 12, "q"⟩ (1/2))
    [("a.mp4", 12)] hpb2b
  intro heq
  have h2 := congrArg RunOutput.history heq
  rw [hruna, hrunb] at h2
  simp [Prod.ext_iff] at h2

/-- C7: at a segment-typed metadata record the service-level
`record_feedback` rebuilds the segment with `key_frames = []`, so the
engine's `record_segment_feedback` returns without touching either feedback
set, yet the service reports success — the feedback sets are never mutated
on the segment path, for either label. -/
theorem C7_segment_feedback_dropped :
    ∀ (fb : FeedbackState) (b : Bool),
      service_record_feedback fb ⟨some "seg-1", "a.mp4", 10, 1, 3, "p"⟩ b
        = (fb, true) := by
  intro fb b
  rfl

end MyAI
